import Mathlib

/-!
# Verification of the Hedera HSM signing adapters

Shallow embedding of the signing/key-conversion helper functions of the
three scripts in this repository:

* `gcp-hedera-hsm.js` — `kmsSigner` (Keccak-256 digest, DER ECDSA signature
  decoding and raw 64-byte reconstruction) and `fetchKmsPublicKey`
  (PEM → SPKI DER → hex).
* `azure-hedera-hsm.js` — `azureSigner` (Keccak-256 digest, signature bytes
  returned unchanged) and `fetchAzurePublicKey` (JWK field rewriting and
  JWK → SPKI DER → hex).
* the Vault transit script — `vaultSigner` (base64 transport of the raw
  payload, colon-split signature extraction) and `getVaultPublicKey`.

Bytes are modelled as `Nat` values below 256, byte strings as `List Nat`,
and machine words as `Nat` with explicit reduction modulo `2 ^ 64` or
`2 ^ 32` where the libraries the scripts use would overflow.  Fallible
operations (the asn1.js DER decoder, bn.js `toArray`) return `Option`.
-/

set_option maxRecDepth 100000

namespace HederaHsm

/-! ## Byte strings -/

/-- A byte string: every element is an 8-bit value. -/
def ValidBytes (l : List Nat) : Prop := ∀ b ∈ l, b < 256

instance : DecidablePred ValidBytes := fun l =>
  List.decidableBAll (fun b => b < 256) l

/-- Big-endian value of a byte string (how bn.js reads an ASN.1 INTEGER
    content buffer: `new BN(buffer)` is unsigned big-endian). -/
def beVal : List Nat → Nat
  | [] => 0
  | b :: rest => b * 256 ^ rest.length + beVal rest

/-- Big-endian encoding of a value into exactly `n` bytes, most
    significant first (the semantics of bn.js `toArray("be", n)` when the
    value fits). -/
def beBytes : Nat → Nat → List Nat
  | 0, _ => []
  | n + 1, v => beBytes n (v / 256) ++ [v % 256]

theorem beBytes_length (n v : Nat) : (beBytes n v).length = n := by
  induction n generalizing v with
  | zero => rfl
  | succ m ih => simp [beBytes, ih]

theorem beVal_append_singleton (l : List Nat) (b : Nat) :
    beVal (l ++ [b]) = beVal l * 256 + b := by
  induction l with
  | nil => simp [beVal]
  | cons a t ih =>
    simp only [List.cons_append, List.append_eq, beVal, List.length_append,
      List.length_cons, List.length_nil, ih, pow_succ, pow_zero]
    ring

theorem beVal_cons_zero (l : List Nat) : beVal (0 :: l) = beVal l := by
  simp [beVal]

theorem beVal_lt (l : List Nat) (h : ValidBytes l) :
    beVal l < 256 ^ l.length := by
  induction l with
  | nil => simp [beVal]
  | cons b t ih =>
    have hb : b < 256 := h b (List.mem_cons_self b t)
    have ht : beVal t < 256 ^ t.length := ih (fun x hx => h x (List.mem_cons_of_mem b hx))
    simp only [beVal, List.length_cons, pow_succ]
    calc b * 256 ^ t.length + beVal t
        < b * 256 ^ t.length + 256 ^ t.length := by omega
      _ = (b + 1) * 256 ^ t.length := by ring
      _ ≤ 256 * 256 ^ t.length := by
          exact Nat.mul_le_mul_right _ (by omega)
      _ = 256 ^ t.length * 256 := by ring

theorem beVal_beBytes (n v : Nat) (h : v < 256 ^ n) :
    beVal (beBytes n v) = v := by
  induction n generalizing v with
  | zero => simp [beBytes, beVal]; omega
  | succ m ih =>
    have hv : v / 256 < 256 ^ m := by
      have : v < 256 ^ m * 256 := by
        simpa [pow_succ] using h
      omega
    simp only [beBytes, beVal_append_singleton, ih (v / 256) hv]
    omega

theorem beBytes_beVal (l : List Nat) (h : ValidBytes l) :
    beBytes l.length (beVal l) = l := by
  induction l using List.reverseRecOn with
  | nil => rfl
  | append_singleton t b ih =>
    have hb : b < 256 := h b (by simp)
    have ht : ValidBytes t := fun x hx => h x (by simp [hx])
    simp only [List.length_append, List.length_cons, List.length_nil,
      beVal_append_singleton]
    have hdiv : (beVal t * 256 + b) / 256 = beVal t := by omega
    have hmod : (beVal t * 256 + b) % 256 = b := by omega
    simpa [beBytes, hdiv, hmod] using congrArg (· ++ [b]) (ih ht)

theorem beBytes_succ_of_lt (n v : Nat) (h : v < 256 ^ n) :
    beBytes (n + 1) v = 0 :: beBytes n v := by
  induction n generalizing v with
  | zero =>
    have : v = 0 := by simpa using h
    subst this; rfl
  | succ m ih =>
    have hv : v / 256 < 256 ^ m := by
      have : v < 256 ^ m * 256 := by simpa [pow_succ] using h
      omega
    calc beBytes (m + 2) v = beBytes (m + 1) (v / 256) ++ [v % 256] := rfl
      _ = (0 :: beBytes m (v / 256)) ++ [v % 256] := by rw [ih _ hv]
      _ = 0 :: beBytes (m + 1) v := rfl

/-- Zero left-padding: encoding into a wider field prepends zero bytes. -/
theorem beBytes_pad (n m v : Nat) (hmn : m ≤ n) (hv : v < 256 ^ m) :
    beBytes n v = List.replicate (n - m) 0 ++ beBytes m v := by
  induction n with
  | zero =>
    have : m = 0 := by omega
    subst this; rfl
  | succ k ih =>
    rcases Nat.eq_or_lt_of_le hmn with heq | hlt
    · subst heq; simp
    · have hmk : m ≤ k := by omega
      have hvk : v < 256 ^ k := lt_of_lt_of_le hv (Nat.pow_le_pow_right (by omega) hmk)
      rw [beBytes_succ_of_lt k v hvk, ih hmk]
      have : k + 1 - m = (k - m) + 1 := by omega
      simp [this, List.replicate_succ]

/-! ## asn1.js DER decoding of `EcdsaSig = SEQUENCE { INTEGER r, INTEGER s }`

`EcdsaSig.decode(sig, "der")` reads a constructed SEQUENCE tag (0x30),
a DER length (short form, or long form of at most four length octets;
the indefinite form 0x80 is rejected), then the two INTEGER components
in order.  Each INTEGER content buffer is read unsigned big-endian.
Any failure throws, modelled as `none`. -/

/-- Read a DER length: first octet below 0x80 is the length itself;
    0x80 (indefinite) is rejected; otherwise the low seven bits count the
    following length octets (at most four). -/
def parseLen : List Nat → Option (Nat × List Nat)
  | [] => none
  | b :: rest =>
    if b < 128 then some (b, rest)
    else if b = 128 then none
    else if 4 < b - 128 then none
    else readLenOctets (b - 128) 0 rest
where
  readLenOctets : Nat → Nat → List Nat → Option (Nat × List Nat)
  | 0, acc, rest => some (acc, rest)
  | _ + 1, _, [] => none
  | n + 1, acc, b :: rest => readLenOctets n (acc * 256 + b) rest

/-- Read one DER INTEGER component: tag 0x02, a DER length, then that many
    content octets (failing when the buffer is shorter).  Returns the
    content octets and the remaining input. -/
def parseIntComp : List Nat → Option (List Nat × List Nat)
  | 2 :: rest =>
    match parseLen rest with
    | none => none
    | some (len, rest') =>
      if len ≤ rest'.length then some (rest'.take len, rest'.drop len) else none
  | _ => none

/-- `EcdsaSig.decode(sig, "der")`: SEQUENCE tag, length, then the `r` and
    `s` INTEGERs decoded from the sequence body, each read as an unsigned
    big-endian value. -/
def ecdsaSigDecode (sig : List Nat) : Option (Nat × Nat) :=
  match sig with
  | 48 :: rest =>
    match parseLen rest with
    | none => none
    | some (len, body0) =>
      if len ≤ body0.length then
        match parseIntComp (body0.take len) with
        | none => none
        | some (rb, body1) =>
          match parseIntComp body1 with
          | none => none
          | some (sb, _) => some (beVal rb, beVal sb)
      else none
  | _ => none

/-- bn.js `toArray("be", width)`: asserts the value fits in `width` bytes
    (throwing otherwise, modelled as `none`) and returns the big-endian
    zero-left-padded `width`-byte encoding. -/
def toArrayBe (width v : Nat) : Option (List Nat) :=
  if v < 256 ^ width then some (beBytes width v) else none

/-- The signature-normalization part of `kmsSigner`
    (gcp-hedera-hsm.js lines 58–63): decode the DER signature into
    `(r, s)`, then fill a 64-byte array with `r.toArray("be", 32)` at
    offset 0 and `s.toArray("be", 32)` at offset 32. -/
def kmsSignatureNormalize (sig : List Nat) : Option (List Nat) :=
  match ecdsaSigDecode sig with
  | none => none
  | some (r, s) =>
    match toArrayBe 32 r, toArrayBe 32 s with
    | some rBytes, some sBytes => some (rBytes ++ sBytes)
    | _, _ => none

/-- DER encoding of an ECDSA signature from the content octets of its two
    INTEGER components (short-form lengths, as is always the case for
    secp256k1 signature components of at most 33 content octets). -/
def derEncodeSig (rb sb : List Nat) : List Nat :=
  48 :: (rb.length + sb.length + 4) :: 2 :: rb.length :: (rb ++ 2 :: sb.length :: sb)

theorem take_length_append (l t : List Nat) : (l ++ t).take l.length = l := by
  induction l with
  | nil => rfl
  | cons a l ih => simp [List.take, ih]

theorem drop_length_append (l t : List Nat) : (l ++ t).drop l.length = t := by
  induction l with
  | nil => rfl
  | cons a l ih => simp [List.drop, ih]

theorem take_append_len (l t : List Nat) (n : Nat) (h : l.length = n) :
    (l ++ t).take n = l := by
  subst h; exact take_length_append l t

theorem drop_append_len (l t : List Nat) (n : Nat) (h : l.length = n) :
    (l ++ t).drop n = t := by
  subst h; exact drop_length_append l t

/-- Decoding the DER encoding of a signature built from component content
    octets of at most 33 bytes each recovers the big-endian values of the
    components. -/
theorem ecdsaSigDecode_derEncodeSig (rb sb : List Nat)
    (hr : rb.length ≤ 33) (hs : sb.length ≤ 33) :
    ecdsaSigDecode (derEncodeSig rb sb) = some (beVal rb, beVal sb) := by
  have hbodyLen :
      (2 :: rb.length :: (rb ++ 2 :: sb.length :: sb)).length
        = rb.length + sb.length + 4 := by
    simp; omega
  have hL : rb.length + sb.length + 4 < 128 := by omega
  have hrlen : rb.length < 128 := by omega
  have hslen : sb.length < 128 := by omega
  simp only [derEncodeSig, ecdsaSigDecode, parseLen, hL, if_pos]
  rw [if_pos (by rw [hbodyLen])]
  rw [show rb.length + sb.length + 4
        = (2 :: rb.length :: (rb ++ 2 :: sb.length :: sb)).length from hbodyLen.symm,
     List.take_length]
  simp only [parseIntComp, parseLen, hrlen, if_pos]
  rw [if_pos (by simp)]
  rw [take_length_append, drop_length_append]
  simp only [parseIntComp, parseLen, hslen, if_pos]
  rw [if_pos (le_refl sb.length), List.take_length]

/-- Encoding the value of a byte string of at most 32 bytes into a 32-byte
    field left-pads it with zero bytes. -/
theorem beBytes32_of_short (l : List Nat) (hv : ValidBytes l) (hl : l.length ≤ 32) :
    beBytes 32 (beVal l) = List.replicate (32 - l.length) 0 ++ l := by
  rw [beBytes_pad 32 l.length (beVal l) hl (beVal_lt l hv), beBytes_beVal l hv]

/-- Encoding the value of a sign-padded 33-byte INTEGER content buffer into
    a 32-byte field strips the leading sign-pad byte. -/
theorem beBytes32_strip_signpad (t : List Nat) (hv : ValidBytes t) (hl : t.length = 32) :
    beBytes 32 (beVal (0 :: t)) = t := by
  rw [beVal_cons_zero]
  calc beBytes 32 (beVal t) = beBytes t.length (beVal t) := by rw [hl]
    _ = t := beBytes_beVal t hv

/-- Sample components for the C1 scenario: `r` with 31 significant bytes
    and `s` sign-padded to 33 content bytes. -/
def c1SampleR : List Nat := List.replicate 31 171

/-- The sign-padded `s` component of the C1 scenario. -/
def c1SampleS : List Nat := 0 :: List.replicate 32 205

/-- C1: for every valid DER ECDSA signature (SEQUENCE of two INTEGERs with
    content octets `rb`, `sb`, each value fitting in 32 bytes), the r/s
    reconstruction in `kmsSigner` returns exactly 64 bytes: the first 32
    are `r` big-endian left-padded with zeros to width 32, the last 32 are
    `s` likewise, with any ASN.1 positive-sign padding byte stripped. -/
theorem C1_kms_signature_reconstruction (rb sb : List Nat)
    (hvr : ValidBytes rb) (hvs : ValidBytes sb)
    (hr : rb.length ≤ 33) (hs : sb.length ≤ 33)
    (hrv : beVal rb < 256 ^ 32) (hsv : beVal sb < 256 ^ 32) :
    kmsSignatureNormalize (derEncodeSig rb sb)
      = some (beBytes 32 (beVal rb) ++ beBytes 32 (beVal sb))
    ∧ (beBytes 32 (beVal rb) ++ beBytes 32 (beVal sb)).length = 64
    ∧ (rb.length ≤ 32 →
        beBytes 32 (beVal rb) = List.replicate (32 - rb.length) 0 ++ rb)
    ∧ (∀ t, rb = 0 :: t → t.length = 32 → beBytes 32 (beVal rb) = t)
    ∧ (sb.length ≤ 32 →
        beBytes 32 (beVal sb) = List.replicate (32 - sb.length) 0 ++ sb)
    ∧ (∀ t, sb = 0 :: t → t.length = 32 → beBytes 32 (beVal sb) = t) := by
  refine ⟨?_, ?_, ?_, ?_, ?_, ?_⟩
  · simp only [kmsSignatureNormalize, ecdsaSigDecode_derEncodeSig rb sb hr hs,
      toArrayBe, if_pos hrv, if_pos hsv]
  · simp [beBytes_length]
  · exact fun h => beBytes32_of_short rb hvr h
  · rintro t rfl ht
    exact beBytes32_strip_signpad t (fun x hx => hvr x (List.mem_cons_of_mem 0 hx)) ht
  · exact fun h => beBytes32_of_short sb hvs h
  · rintro t rfl ht
    exact beBytes32_strip_signpad t (fun x hx => hvs x (List.mem_cons_of_mem 0 hx)) ht

/-- C1 witness: the scenario with `r` of 31 significant bytes and `s`
    sign-padded to 33 content bytes yields the 64-byte signature whose
    first 32 bytes are `0x00` followed by the 31 r-bytes and whose last 32
    bytes are the 32 true s-bytes. -/
theorem C1_kms_signature_reconstruction_witness :
    kmsSignatureNormalize (derEncodeSig c1SampleR c1SampleS)
      = some ((0 :: c1SampleR) ++ List.replicate 32 205) := by
  have h := C1_kms_signature_reconstruction c1SampleR c1SampleS
    (by decide) (by decide) (by decide) (by decide) (by decide) (by decide)
  rw [h.1, h.2.2.1 (by decide),
    h.2.2.2.2.2 (List.replicate 32 205) rfl (by decide)]
  rfl

/-- C5: malformed DER input to the `kmsSigner` signature normalization —
    any input the `EcdsaSig` decoder rejects, and any decodable input with
    a component value too wide for 32 bytes — makes the operation fail,
    returning no partial signature bytes. -/
theorem C5_kms_malformed_der_rejected (sig : List Nat) :
    (ecdsaSigDecode sig = none → kmsSignatureNormalize sig = none)
    ∧ (∀ r s, ecdsaSigDecode sig = some (r, s) →
        256 ^ 32 ≤ r ∨ 256 ^ 32 ≤ s → kmsSignatureNormalize sig = none) := by
  constructor
  · intro h
    simp [kmsSignatureNormalize, h]
  · intro r s h hw
    have hnone : toArrayBe 32 r = none ∨ toArrayBe 32 s = none := by
      rcases hw with hw | hw
      · exact Or.inl (by simp [toArrayBe]; omega)
      · exact Or.inr (by simp [toArrayBe]; omega)
    rcases hnone with h2 | h2
    · simp [kmsSignatureNormalize, h, h2]
    · cases h3 : toArrayBe 32 r <;> simp [kmsSignatureNormalize, h, h2, h3]

/-- C5 witness: a SEQUENCE missing its second INTEGER is rejected, and a
    signature whose `r` component value needs 33 bytes is rejected. -/
theorem C5_kms_malformed_der_rejected_witness :
    kmsSignatureNormalize [48, 3, 2, 1, 1] = none
    ∧ kmsSignatureNormalize (derEncodeSig (1 :: List.replicate 32 0) [1]) = none := by
  constructor
  · exact (C5_kms_malformed_der_rejected _).1 (by decide)
  · exact (C5_kms_malformed_der_rejected _).2
      (beVal (1 :: List.replicate 32 0)) (beVal [1])
      (ecdsaSigDecode_derEncodeSig _ _ (by decide) (by decide))
      (Or.inl (by decide))

/-- C7 counterexample: the `kmsSigner` normalization applied to an
    already-raw 64-byte r‖s input does not return it unchanged — the DER
    decoder rejects it (no byte 0x30 at offset 0), so the call fails. -/
theorem C7_raw_input_not_idempotent_counterexample :
    ¬ (kmsSignatureNormalize (List.replicate 64 1)
        = some (List.replicate 64 1)) := by
  decide

/-- C7 (amended): DER-encoding an (r, s) pair — its components given as
    arbitrary content octets, covering both the minimal and the
    sign-padded encodings — and then normalizing reproduces the original
    values exactly; but the normalization applied to an already-raw
    64-byte input fails rather than returning it unchanged. -/
theorem C7_der_roundtrip (rb sb : List Nat)
    (_hvr : ValidBytes rb) (_hvs : ValidBytes sb)
    (hr : rb.length ≤ 33) (hs : sb.length ≤ 33)
    (hrv : beVal rb < 256 ^ 32) (hsv : beVal sb < 256 ^ 32) :
    kmsSignatureNormalize (derEncodeSig rb sb)
      = some (beBytes 32 (beVal rb) ++ beBytes 32 (beVal sb))
    ∧ beVal ((beBytes 32 (beVal rb) ++ beBytes 32 (beVal sb)).take 32) = beVal rb
    ∧ beVal ((beBytes 32 (beVal rb) ++ beBytes 32 (beVal sb)).drop 32) = beVal sb
    ∧ kmsSignatureNormalize (List.replicate 64 1) = none := by
  refine ⟨?_, ?_, ?_, by decide⟩
  · simp only [kmsSignatureNormalize, ecdsaSigDecode_derEncodeSig rb sb hr hs,
      toArrayBe, if_pos hrv, if_pos hsv]
  · rw [take_append_len _ _ _ (beBytes_length 32 (beVal rb)), beVal_beBytes _ _ hrv]
  · rw [drop_append_len _ _ _ (beBytes_length 32 (beVal rb)), beVal_beBytes _ _ hsv]

/-- C7 witness: round trip at a concrete pair, with `r` minimally encoded
    and `s` sign-padded. -/
theorem C7_der_roundtrip_witness :
    kmsSignatureNormalize (derEncodeSig [5] (0 :: List.replicate 32 7))
      = some (beBytes 32 (beVal [5]) ++ beBytes 32 (beVal (0 :: List.replicate 32 7)))
    ∧ beVal ((beBytes 32 (beVal [5]) ++ beBytes 32 (beVal (0 :: List.replicate 32 7))).take 32)
        = beVal [5] := by
  have h := C7_der_roundtrip [5] (0 :: List.replicate 32 7)
    (by decide) (by decide) (by decide) (by decide) (by decide) (by decide)
  exact ⟨h.1, h.2.1⟩

/-! ## Base64 and base64url (Node `Buffer` semantics)

`Buffer.from(str, "base64")` maps every recognised alphabet character to
its 6-bit value, silently skipping unrecognised characters (including the
`=` padding), and emits one byte per full 8 bits accumulated.
`buf.toString("base64")` emits the padded standard alphabet;
`buf.toString("base64url")` emits the unpadded URL-safe alphabet. -/

/-- The standard base64 alphabet. -/
def b64StdChars : List Char :=
  "ABCDEFGHIJKLMNOPQRSTUVWXYZabcdefghijklmnopqrstuvwxyz0123456789+/".data

/-- The URL-safe base64 alphabet. -/
def b64UrlChars : List Char :=
  "ABCDEFGHIJKLMNOPQRSTUVWXYZabcdefghijklmnopqrstuvwxyz0123456789-_".data

/-- Character of a 6-bit value in a given alphabet. -/
def b64CharOf (tbl : List Char) (i : Nat) : Char := tbl.getD i 'A'

/-- 6-bit value of a character in a given alphabet, `none` when the
    character is not in the alphabet. -/
def b64ValOf (tbl : List Char) (c : Char) : Option Nat := tbl.findIdx? (· == c)

/-- Unpadded base64 encoding over a given alphabet. -/
def b64EncodeCore (tbl : List Char) : List Nat → List Char
  | b1 :: b2 :: b3 :: rest =>
      b64CharOf tbl (b1 / 4) :: b64CharOf tbl (b1 % 4 * 16 + b2 / 16) ::
      b64CharOf tbl (b2 % 16 * 4 + b3 / 64) :: b64CharOf tbl (b3 % 64) ::
      b64EncodeCore tbl rest
  | [b1, b2] => [b64CharOf tbl (b1 / 4), b64CharOf tbl (b1 % 4 * 16 + b2 / 16),
      b64CharOf tbl (b2 % 16 * 4)]
  | [b1] => [b64CharOf tbl (b1 / 4), b64CharOf tbl (b1 % 4 * 16)]
  | [] => []

/-- Reassemble bytes from a stream of 6-bit values, dropping the final
    incomplete byte if fewer than 8 bits remain. -/
def sextetsToBytes : List Nat → List Nat
  | a :: b :: c :: d :: rest =>
      (a * 4 + b / 16) :: (b % 16 * 16 + c / 4) :: (c % 4 * 64 + d) ::
      sextetsToBytes rest
  | [a, b, c] => [a * 4 + b / 16, b % 16 * 16 + c / 4]
  | [a, b] => [a * 4 + b / 16]
  | _ => []

/-- Base64 decoding over a given alphabet, skipping characters outside
    the alphabet (Node `Buffer.from` semantics). -/
def b64DecodeCore (tbl : List Char) (s : List Char) : List Nat :=
  sextetsToBytes (s.filterMap (b64ValOf tbl))

/-- `buf.toString("base64")`: standard alphabet with `=` padding. -/
def base64Encode (l : List Nat) : List Char :=
  b64EncodeCore b64StdChars l ++
    (if l.length % 3 = 1 then ['=', '=']
     else if l.length % 3 = 2 then ['='] else [])

/-- `Buffer.from(s, "base64")`. -/
def base64Decode (s : List Char) : List Nat := b64DecodeCore b64StdChars s

/-- `buf.toString("base64url")`: URL-safe alphabet, no padding. -/
def base64UrlEncode (l : List Nat) : List Char := b64EncodeCore b64UrlChars l

/-- `Buffer.from(s, "base64url")` / Node JWK coordinate decoding. -/
def base64UrlDecode (s : List Char) : List Nat := b64DecodeCore b64UrlChars s

theorem b64Std_inv : ∀ i, i < 64 →
    b64ValOf b64StdChars (b64CharOf b64StdChars i) = some i := by decide

theorem b64Url_inv : ∀ i, i < 64 →
    b64ValOf b64UrlChars (b64CharOf b64UrlChars i) = some i := by decide

theorem b64DecodeCore_b64EncodeCore (tbl : List Char)
    (hinv : ∀ i, i < 64 → b64ValOf tbl (b64CharOf tbl i) = some i) :
    ∀ l : List Nat, ValidBytes l → b64DecodeCore tbl (b64EncodeCore tbl l) = l
  | b1 :: b2 :: b3 :: rest, hv => by
    have h1 : b1 < 256 := hv b1 (by simp)
    have h2 : b2 < 256 := hv b2 (by simp)
    have h3 : b3 < 256 := hv b3 (by simp)
    have hrest : ValidBytes rest := fun x hx => hv x (by simp [hx])
    have e1 := hinv (b1 / 4) (by omega)
    have e2 := hinv (b1 % 4 * 16 + b2 / 16) (by omega)
    have e3 := hinv (b2 % 16 * 4 + b3 / 64) (by omega)
    have e4 := hinv (b3 % 64) (by omega)
    have ih := b64DecodeCore_b64EncodeCore tbl hinv rest hrest
    unfold b64DecodeCore at ih ⊢
    simp only [b64EncodeCore, List.filterMap_cons, e1, e2, e3, e4, sextetsToBytes]
    rw [ih]
    simp only [List.cons.injEq]
    exact ⟨by omega, by omega, by omega, trivial⟩
  | [b1, b2], hv => by
    have h1 : b1 < 256 := hv b1 (by simp)
    have h2 : b2 < 256 := hv b2 (by simp)
    have e1 := hinv (b1 / 4) (by omega)
    have e2 := hinv (b1 % 4 * 16 + b2 / 16) (by omega)
    have e3 := hinv (b2 % 16 * 4) (by omega)
    unfold b64DecodeCore
    simp only [b64EncodeCore, List.filterMap_cons, e1, e2, e3, List.filterMap_nil,
      sextetsToBytes]
    simp only [List.cons.injEq]
    exact ⟨by omega, by omega, trivial⟩
  | [b1], hv => by
    have h1 : b1 < 256 := hv b1 (by simp)
    have e1 := hinv (b1 / 4) (by omega)
    have e2 := hinv (b1 % 4 * 16) (by omega)
    unfold b64DecodeCore
    simp only [b64EncodeCore, List.filterMap_cons, e1, e2, List.filterMap_nil,
      sextetsToBytes]
    simp only [List.cons.injEq]
    exact ⟨by omega, trivial⟩
  | [], _ => rfl

/-- Decoding inverts padded standard base64 encoding. -/
theorem base64Decode_base64Encode (l : List Nat) (hv : ValidBytes l) :
    base64Decode (base64Encode l) = l := by
  have hcore := b64DecodeCore_b64EncodeCore b64StdChars b64Std_inv l hv
  unfold b64DecodeCore at hcore
  unfold base64Decode base64Encode b64DecodeCore
  rw [List.filterMap_append]
  have hpad : (if l.length % 3 = 1 then ['=', '=']
      else if l.length % 3 = 2 then ['='] else ([] : List Char)).filterMap
      (b64ValOf b64StdChars) = [] := by
    split_ifs <;> decide
  rw [hpad, List.append_nil]
  exact hcore

/-- Decoding inverts unpadded base64url encoding. -/
theorem base64UrlDecode_base64UrlEncode (l : List Nat) (hv : ValidBytes l) :
    base64UrlDecode (base64UrlEncode l) = l :=
  b64DecodeCore_b64EncodeCore b64UrlChars b64Url_inv l hv

/-! ## Vault transit signer (`vaultSigner`)

`vaultSigner` base64-encodes the raw payload as the transit `input` field,
posts it, then takes `data.data.signature.split(":")[2]` and base64-decodes
that field. -/

/-- JS `String.prototype.split` with a one-character separator. -/
def jsSplit (sep : Char) : List Char → List (List Char)
  | [] => [[]]
  | c :: rest =>
    if c = sep then [] :: jsSplit sep rest
    else
      match jsSplit sep rest with
      | [] => [[c]]
      | f :: fs => (c :: f) :: fs

/-- The transit `input` field transmitted by `vaultSigner`:
    `Buffer.from(bytesToSign).toString("base64")` of the raw payload, with
    no pre-hashing. -/
def vaultTransmittedInput (payload : List Nat) : List Char := base64Encode payload

/-- Signature extraction in `vaultSigner`: split the composite signature
    string on `:`, take the field at index 2, base64-decode it.  Indexing
    past the end is the JS `undefined`, which `Buffer.from` rejects,
    modelled as `none`. -/
def vaultSignatureNormalize (sig : List Char) : Option (List Nat) :=
  ((jsSplit ':' sig).get? 2).map base64Decode

theorem jsSplit_ne_nil (sep : Char) (l : List Char) : jsSplit sep l ≠ [] := by
  cases l with
  | nil => simp [jsSplit]
  | cons c rest =>
    by_cases h : c = sep
    · simp [jsSplit, h]
    · simp only [jsSplit, if_neg h]
      cases jsSplit sep rest <;> simp

theorem jsSplit_no_sep (sep : Char) (f : List Char) (h : sep ∉ f) :
    jsSplit sep f = [f] := by
  induction f with
  | nil => rfl
  | cons c rest ih =>
    have hc : ¬ c = sep := fun hc => h (hc ▸ List.mem_cons_self c rest)
    have hr : sep ∉ rest := fun hr => h (List.mem_cons_of_mem c hr)
    simp only [jsSplit, if_neg hc, ih hr]

theorem jsSplit_sep_append (sep : Char) (f rest : List Char) (h : sep ∉ f) :
    jsSplit sep (f ++ sep :: rest) = f :: jsSplit sep rest := by
  induction f with
  | nil => simp [jsSplit]
  | cons c t ih =>
    have hc : ¬ c = sep := fun hc => h (hc ▸ List.mem_cons_self c t)
    have ht : sep ∉ t := fun hr => h (List.mem_cons_of_mem c hr)
    simp only [List.cons_append, List.append_eq, jsSplit, if_neg hc, ih ht]

/-- C3 counterexample: on the composite string `"1:1:AA==:QQ=="` — three
    colon-delimited prefix fields before the trailing base64 field — the
    vault normalization decodes the field at index 2 (`"AA=="`), not the
    last field (`"QQ=="`), so the output differs from the base64-decoding
    of the last field. -/
theorem C3_vault_not_last_field_counterexample :
    vaultSignatureNormalize ("1:1:AA==:QQ==".data)
      = some (base64Decode ("AA==".data))
    ∧ (jsSplit ':' ("1:1:AA==:QQ==".data)).getLast? = some ("QQ==".data)
    ∧ ¬ (vaultSignatureNormalize ("1:1:AA==:QQ==".data)
          = some (base64Decode ("QQ==".data))) := by
  refine ⟨by decide, by decide, by decide⟩

/-- C3 (amended): the vault normalization base64-decodes exactly the
    colon-delimited field at index 2 (the third field).  For the two-prefix
    composite form `<v>:<v>:<base64>` this field is the last one, so there
    the claim's behaviour holds; with additional prefix fields the third
    field is no longer the last. -/
theorem C3_vault_takes_third_field (f0 f1 f2 : List Char)
    (h0 : ':' ∉ f0) (h1 : ':' ∉ f1) (h2 : ':' ∉ f2) :
    vaultSignatureNormalize (f0 ++ ':' :: (f1 ++ ':' :: f2))
      = some (base64Decode f2)
    ∧ (jsSplit ':' (f0 ++ ':' :: (f1 ++ ':' :: f2))).getLast? = some f2 := by
  have hsplit : jsSplit ':' (f0 ++ ':' :: (f1 ++ ':' :: f2)) = [f0, f1, f2] := by
    rw [jsSplit_sep_append ':' f0 _ h0, jsSplit_sep_append ':' f1 _ h1,
      jsSplit_no_sep ':' f2 h2]
  constructor
  · simp [vaultSignatureNormalize, hsplit]
  · simp [hsplit]

/-- C3 witness: the standard two-prefix composite `"1:1:QQ=="` decodes to
    the base64-decoding of its trailing field. -/
theorem C3_vault_takes_third_field_witness :
    vaultSignatureNormalize ("1".data ++ ':' :: ("1".data ++ ':' :: "QQ==".data))
      = some (base64Decode ("QQ==".data)) :=
  (C3_vault_takes_third_field "1".data "1".data "QQ==".data
    (by decide) (by decide) (by decide)).1

/-! ## Keccak-256 (the `keccak256` npm package)

Both `kmsSigner` and `azureSigner` compute `keccak256(bytesToSign)` before
contacting the backend.  The package implements original Keccak-256
(rate 1088, capacity 512, multi-rate padding with domain byte 0x01 —
not the SHA-3 domain byte 0x06).  Lanes are 64-bit words, modelled as
`Nat` reduced modulo `2 ^ 64`. -/

/-- All-ones 64-bit word, used for bitwise complement. -/
def mask64 : Nat := 2 ^ 64 - 1

/-- 64-bit left rotation. -/
def rotl64 (n r : Nat) : Nat := ((n <<< r) ||| (n >>> (64 - r))) % 2 ^ 64

/-- Lane read from a 25-lane state, row-major index `x + 5 * y`. -/
def get25 (s : List Nat) (i : Nat) : Nat := s.getD i 0

/-- Keccak θ step. -/
def keccakTheta (s : List Nat) : List Nat :=
  let c := fun x => get25 s x ^^^ get25 s (x + 5) ^^^ get25 s (x + 10) ^^^
    get25 s (x + 15) ^^^ get25 s (x + 20)
  let d := fun x => c ((x + 4) % 5) ^^^ rotl64 (c ((x + 1) % 5)) 1
  List.ofFn fun i : Fin 25 => get25 s i.1 ^^^ d (i.1 % 5)

/-- Keccak ρ rotation offsets, indexed `x + 5 * y`. -/
def rhoOffsets : List Nat :=
  List.foldr List.append []
    [[0, 1, 62, 28, 27], [36, 44, 6, 55, 20], [3, 10, 43, 25, 39],
     [41, 45, 15, 21, 8], [18, 2, 61, 56, 14]]

/-- Keccak ρ and π steps: output lane `(x, y)` is the source lane
    `((x + 3 y) mod 5, x)` rotated by its offset. -/
def keccakRhoPi (s : List Nat) : List Nat :=
  List.ofFn fun i : Fin 25 =>
    let xp := i.1 % 5
    let yp := i.1 / 5
    let src := (xp + 3 * yp) % 5 + 5 * xp
    rotl64 (get25 s src) (rhoOffsets.getD src 0)

/-- Keccak χ step. -/
def keccakChi (b : List Nat) : List Nat :=
  List.ofFn fun i : Fin 25 =>
    let x := i.1 % 5
    let y := i.1 / 5
    get25 b i.1 ^^^
      ((get25 b ((x + 1) % 5 + 5 * y) ^^^ mask64) &&& get25 b ((x + 2) % 5 + 5 * y))

/-- Keccak-f[1600] round constants. -/
def keccakRoundConstants : List Nat :=
  [1, 32898, 9223372036854808714,
   9223372039002292224, 32907, 2147483649,
   9223372039002292353, 9223372036854808585, 138,
   136, 2147516425, 2147483658,
   2147516555, 9223372036854775947, 9223372036854808713,
   9223372036854808579, 9223372036854808578, 9223372036854775936,
   32778, 9223372039002259466, 9223372039002292353,
   9223372036854808704, 2147483649, 9223372039002292232]

/-- One Keccak round: θ, ρ, π, χ, then ι (xor the round constant into
    lane 0). -/
def keccakRound (s : List Nat) (rc : Nat) : List Nat :=
  match keccakChi (keccakRhoPi (keccakTheta s)) with
  | [] => []
  | a :: rest => (a ^^^ rc) :: rest

/-- The Keccak-f[1600] permutation: 24 rounds. -/
def keccakF (s : List Nat) : List Nat := keccakRoundConstants.foldl keccakRound s

/-- Multi-rate padding for rate 136 with the original-Keccak domain
    byte 0x01: `0x01 0x00 … 0x80`, collapsing to a single `0x81` byte when
    only one byte of room remains. -/
def keccakPad (len : Nat) : List Nat :=
  let q := 136 - len % 136
  if q = 1 then [129] else 1 :: (List.replicate (q - 2) 0 ++ [128])

/-- Split a list into chunks of `size` bytes (fuel-based recursion so that
    the definition reduces by evaluation). -/
def chunksAux (size : Nat) : Nat → List Nat → List (List Nat)
  | 0, _ => []
  | _, [] => []
  | fuel + 1, l => l.take size :: chunksAux size fuel (l.drop size)

/-- Split a list into chunks of `size` bytes. -/
def chunks (size : Nat) (l : List Nat) : List (List Nat) := chunksAux size l.length l

/-- Little-endian value of a byte string. -/
def leVal : List Nat → Nat
  | [] => 0
  | b :: rest => b + 256 * leVal rest

/-- Little-endian encoding of a value into exactly `n` bytes. -/
def leBytes : Nat → Nat → List Nat
  | 0, _ => []
  | n + 1, v => v % 256 :: leBytes n (v / 256)

theorem leBytes_length (n v : Nat) : (leBytes n v).length = n := by
  induction n generalizing v with
  | zero => rfl
  | succ m ih => simp [leBytes, ih]

/-- Absorb one 136-byte block: xor its 17 little-endian lanes into the
    first 17 lanes of the state. -/
def absorbBlock (s : List Nat) (block : List Nat) : List Nat :=
  List.ofFn fun i : Fin 25 =>
    if i.1 < 17 then get25 s i.1 ^^^ leVal ((block.drop (8 * i.1)).take 8)
    else get25 s i.1

/-- Keccak-256 of a byte string: pad, absorb all blocks, squeeze the
    first four lanes (32 bytes). -/
def keccak256 (msg : List Nat) : List Nat :=
  let padded := msg ++ keccakPad msg.length
  let final := (chunks 136 padded).foldl (fun s b => keccakF (absorbBlock s b))
    (List.replicate 25 0)
  leBytes 8 (get25 final 0) ++ leBytes 8 (get25 final 1) ++
    leBytes 8 (get25 final 2) ++ leBytes 8 (get25 final 3)

/-- Keccak-256 always yields exactly 32 bytes. -/
theorem keccak256_length (msg : List Nat) : (keccak256 msg).length = 32 := by
  simp [keccak256, leBytes_length]

/-! ## SHA-256

The GCP KMS request labels its digest field `sha256` (the key was created
with algorithm `ec-sign-secp256k1-sha256`), so SHA-256 is embedded here to
compare against the digest the code actually transmits. -/

/-- 32-bit right rotation. -/
def rotr32 (x r : Nat) : Nat := ((x >>> r) ||| (x <<< (32 - r))) % 2 ^ 32

/-- SHA-256 round constants. -/
def sha256K : List Nat :=
  [1116352408, 1899447441, 3049323471, 3921009573, 961987163, 1508970993,
   2453635748, 2870763221, 3624381080, 310598401, 607225278, 1426881987,
   1925078388, 2162078206, 2614888103, 3248222580, 3835390401, 4022224774,
   264347078, 604807628, 770255983, 1249150122, 1555081692, 1996064986,
   2554220882, 2821834349, 2952996808, 3210313671, 3336571891, 3584528711,
   113926993, 338241895, 666307205, 773529912, 1294757372, 1396182291,
   1695183700, 1986661051, 2177026350, 2456956037, 2730485921, 2820302411,
   3259730800, 3345764771, 3516065817, 3600352804, 4094571909, 275423344,
   430227734, 506948616, 659060556, 883997877, 958139571, 1322822218,
   1537002063, 1747873779, 1955562222, 2024104815, 2227730452, 2361852424,
   2428436474, 2756734187, 3204031479, 3329325298]

/-- SHA-256 initial hash values. -/
def sha256Init : List Nat :=
  [1779033703, 3144134277, 1013904242, 2773480762,
   1359893119, 2600822924, 528734635, 1541459225]

/-- SHA-256 message padding: `0x80`, zeros to 56 mod 64, then the bit
    length as a big-endian 64-bit integer. -/
def sha256Pad (msg : List Nat) : List Nat :=
  let k := (64 + 56 - (msg.length + 1) % 64) % 64
  msg ++ 128 :: (List.replicate k 0 ++ beBytes 8 (msg.length * 8))

/-- σ₀ of the SHA-256 message schedule. -/
def smallSigma0 (x : Nat) : Nat := rotr32 x 7 ^^^ rotr32 x 18 ^^^ (x >>> 3)

/-- σ₁ of the SHA-256 message schedule. -/
def smallSigma1 (x : Nat) : Nat := rotr32 x 17 ^^^ rotr32 x 19 ^^^ (x >>> 10)

/-- Σ₀ of the SHA-256 compression function. -/
def bigSigma0 (x : Nat) : Nat := rotr32 x 2 ^^^ rotr32 x 13 ^^^ rotr32 x 22

/-- Σ₁ of the SHA-256 compression function. -/
def bigSigma1 (x : Nat) : Nat := rotr32 x 6 ^^^ rotr32 x 11 ^^^ rotr32 x 25

/-- Message schedule: 16 big-endian words from the block, extended to 64. -/
def sha256Schedule (block : List Nat) : List Nat :=
  let w16 := List.ofFn fun i : Fin 16 => beVal ((block.drop (4 * i.1)).take 4)
  (List.range 48).foldl (fun acc _ =>
    let n := acc.length
    acc ++ [(smallSigma1 (acc.getD (n - 2) 0) + acc.getD (n - 7) 0 +
      smallSigma0 (acc.getD (n - 15) 0) + acc.getD (n - 16) 0) % 2 ^ 32]) w16

/-- One round of the SHA-256 compression function over the eight working
    registers, given a (round constant, schedule word) pair. -/
def sha256Round (regs : List Nat) (kw : Nat × Nat) : List Nat :=
  let a := regs.getD 0 0
  let b := regs.getD 1 0
  let c := regs.getD 2 0
  let d := regs.getD 3 0
  let e := regs.getD 4 0
  let f := regs.getD 5 0
  let g := regs.getD 6 0
  let h := regs.getD 7 0
  let ch := g ^^^ (e &&& (f ^^^ g))
  let maj := (a &&& b) ^^^ (c &&& (a ^^^ b))
  let t1 := (h + bigSigma1 e + ch + kw.1 + kw.2) % 2 ^ 32
  let t2 := (bigSigma0 a + maj) % 2 ^ 32
  [(t1 + t2) % 2 ^ 32, a, b, c, (d + t1) % 2 ^ 32, e, f, g]

/-- Process one 64-byte block and add the result into the hash state. -/
def sha256Block (regs : List Nat) (block : List Nat) : List Nat :=
  let w := sha256Schedule block
  let out := (sha256K.zip w).foldl sha256Round regs
  List.ofFn fun i : Fin 8 => (regs.getD i.1 0 + out.getD i.1 0) % 2 ^ 32

/-- SHA-256 of a byte string, as 32 bytes. -/
def sha256 (msg : List Nat) : List Nat :=
  let final := (chunks 64 (sha256Pad msg)).foldl sha256Block sha256Init
  final.foldr (fun w acc => beBytes 4 w ++ acc) []

/-! ## The GCP KMS sign request (`kmsSigner`, lines 50–56) -/

/-- The `asymmetricSign` request built by `kmsSigner`: the key-version
    name and a digest object with a single field labelled `sha256`. -/
structure KmsSignRequest where
  name : String
  digestFieldLabel : String
  digestFieldBytes : List Nat

/-- `kmsSigner` computes `keccak256(bytesToSign)` and places it in the
    request as `digest: { sha256: digest }`. -/
def kmsSignRequestOf (keyVersion : String) (bytesToSign : List Nat) : KmsSignRequest :=
  { name := keyVersion
    digestFieldLabel := "sha256"
    digestFieldBytes := keccak256 bytesToSign }

/-! ## The Azure signer (`azureSigner`, lines 52–63) -/

/-- Counters of backend requests issued on the HSM-vault path. -/
structure AzureBackendState where
  keyFetchCount : Nat
  signRequestCount : Nat

/-- The digest `azureSigner` transmits: `keccak256(bytesToSign)`. -/
def azureTransmittedDigest (bytesToSign : List Nat) : List Nat :=
  keccak256 bytesToSign

/-- The signature handling of `azureSigner` (line 62): the backend's
    `ES256K` response bytes are returned unchanged
    (`new Uint8Array(signResponse.result)`), with no decoding and no
    layout inspection. -/
def azureSignatureNormalize (sig : List Nat) : List Nat := sig

/-- One invocation of `azureSigner`: fetch the key metadata with
    `keyClient.getKey`, construct a fresh `CryptographyClient`, hash the
    payload with Keccak-256, issue the `ES256K` sign request over the
    digest, and return the backend's signature bytes unchanged.  Yields
    the updated request counters, the digest transmitted, and the
    signature returned to the SDK. -/
def azureSignerRun (st : AzureBackendState) (bytesToSign backendSignature : List Nat) :
    AzureBackendState × List Nat × List Nat :=
  ({ keyFetchCount := st.keyFetchCount + 1
     signRequestCount := st.signRequestCount + 1 },
   azureTransmittedDigest bytesToSign,
   azureSignatureNormalize backendSignature)

/-- `n` consecutive `azureSigner` invocations. -/
def azureSignerIterate (payload sig : List Nat) : Nat → AzureBackendState → AzureBackendState
  | 0, st => st
  | n + 1, st => azureSignerIterate payload sig n (azureSignerRun st payload sig).1

/-! ## Key material (`fetchAzurePublicKey`, `fetchKmsPublicKey`) -/

/-- Lower-case hex digit of a value below 16. -/
def hexChar (n : Nat) : Char := "0123456789abcdef".data.getD n '0'

/-- `buf.toString("hex")`: two lower-case hex digits per byte. -/
def toHex (l : List Nat) : List Char :=
  l.foldr (fun b acc => hexChar (b / 16) :: hexChar (b % 16) :: acc) []

/-- The fixed SPKI prelude for a secp256k1 public key: outer SEQUENCE,
    AlgorithmIdentifier (id-ecPublicKey, secp256k1), and the BIT STRING
    header, up to and including the uncompressed-point bytes. -/
def secp256k1SpkiHeader : List Nat :=
  [0x30, 0x56, 0x30, 0x10, 0x06, 0x07, 0x2a, 0x86, 0x48, 0xce, 0x3d, 0x02, 0x01,
   0x06, 0x05, 0x2b, 0x81, 0x04, 0x00, 0x0a, 0x03, 0x42, 0x00]

/-- SPKI DER of the secp256k1 public key with 32-byte coordinates
    `x`, `y` (uncompressed point `0x04 ‖ x ‖ y`). -/
def secp256k1Spki (x y : List Nat) : List Nat :=
  secp256k1SpkiHeader ++ 4 :: (x ++ y)

/-- The JWK returned by `keyClient.getKey(...).key`: proprietary key-type
    and curve tags, coordinates as raw byte buffers. -/
structure AzureJwk where
  kty : String
  crv : String
  x : List Nat
  y : List Nat

/-- Modelled from Node crypto semantics:
    `createPublicKey({key, format: "jwk"})` followed by
    `export({type: "spki", format: "der"})` for an elliptic-curve JWK —
    requires `kty = "EC"` and a curve name the parser knows, base64url-
    decodes the coordinate fields, and emits the SPKI DER containing the
    uncompressed point. -/
def jwkToSpkiDer (kty crv : String) (x y : List Char) : Option (List Nat) :=
  if kty = "EC" ∧ crv = "secp256k1" then
    let xb := base64UrlDecode x
    let yb := base64UrlDecode y
    if xb.length = 32 ∧ yb.length = 32 then some (secp256k1Spki xb yb) else none
  else none

/-- The normalization in `fetchAzurePublicKey` (lines 73–96): overwrite
    `kty` with "EC" and `crv` with "secp256k1", re-encode the raw `x`/`y`
    buffers as base64url text, convert the JWK to SPKI DER through Node
    crypto, and hex-encode the DER. -/
def azureKeyNormalize (jwk : AzureJwk) : Option (List Char) :=
  (jwkToSpkiDer "EC" "secp256k1"
    (base64UrlEncode jwk.x) (base64UrlEncode jwk.y)).map toHex

/-- A PEM-armored SPKI public key: the base64 payload between the BEGIN
    and END armor lines. -/
structure PemKey where
  body : List Char

/-- Modelled from Node crypto semantics: `createPublicKey(pem)` followed
    by SPKI DER export re-encodes the armored body — the exported DER is
    the base64-decoding of an SPKI PEM body. -/
def pemToSpkiDer (pem : PemKey) : List Nat := base64Decode pem.body

/-- The normalization in `fetchKmsPublicKey` (lines 77–80):
    PEM → SPKI DER → hex. -/
def gcpKeyNormalize (pem : PemKey) : List Char := toHex (pemToSpkiDer pem)

/-- The PEM the cloud-KMS backend serves for the same underlying
    secp256k1 key with coordinates `x`, `y`. -/
def kmsPemOfCoords (x y : List Nat) : PemKey :=
  ⟨base64Encode (secp256k1Spki x y)⟩

/-- One invocation of `fetchKmsPublicKey`: it always issues one
    `getPublicKey` backend request and recomputes the normalization;
    the source contains no caching. -/
def fetchKmsPublicKeyRun (fetchCount : Nat) (pem : PemKey) : Nat × List Char :=
  (fetchCount + 1, gcpKeyNormalize pem)

/-- One invocation of `fetchAzurePublicKey`: one `keyClient.getKey`
    backend request per call, no caching. -/
def fetchAzurePublicKeyRun (fetchCount : Nat) (jwk : AzureJwk) :
    Nat × Option (List Char) :=
  (fetchCount + 1, azureKeyNormalize jwk)

theorem validBytes_append (l t : List Nat) (hl : ValidBytes l) (ht : ValidBytes t) :
    ValidBytes (l ++ t) := by
  intro b hb
  rcases List.mem_append.mp hb with h | h
  · exact hl b h
  · exact ht b h

theorem validBytes_spki (x y : List Nat) (hx : ValidBytes x) (hy : ValidBytes y) :
    ValidBytes (secp256k1Spki x y) := by
  refine validBytes_append _ _ (by decide) ?_
  intro b hb
  rcases List.mem_cons.mp hb with h | h
  · omega
  · rcases List.mem_append.mp h with h2 | h2
    · exact hx b h2
    · exact hy b h2

/-- C2: digest policy — both secp256k1 backends transmit the 32-byte
    Keccak-256 digest of the payload before signing (at the spec's "abc"
    vector this differs from both the SHA-256 digest and the raw
    payload), while the ed25519 vault backend transmits the raw payload
    under base64 transport encoding only, with no pre-hashing. -/
theorem C2_digest_policy (keyVersion : String) (payload : List Nat)
    (hv : ValidBytes payload) :
    (kmsSignRequestOf keyVersion payload).digestFieldBytes = keccak256 payload
    ∧ azureTransmittedDigest payload = keccak256 payload
    ∧ (keccak256 payload).length = 32
    ∧ vaultTransmittedInput payload = base64Encode payload
    ∧ base64Decode (vaultTransmittedInput payload) = payload
    ∧ ¬ (keccak256 [97, 98, 99] = sha256 [97, 98, 99])
    ∧ ¬ (keccak256 [97, 98, 99] = [97, 98, 99]) :=
  ⟨rfl, rfl, keccak256_length payload, rfl,
    base64Decode_base64Encode payload hv, by decide, by decide⟩

/-- C2 witness: the digest policy at the payload "abc". -/
theorem C2_digest_policy_witness :
    azureTransmittedDigest [97, 98, 99] = keccak256 [97, 98, 99]
    ∧ base64Decode (vaultTransmittedInput [97, 98, 99]) = [97, 98, 99] :=
  ⟨(C2_digest_policy "key" [97, 98, 99] (by decide)).2.1,
   (C2_digest_policy "key" [97, 98, 99] (by decide)).2.2.2.2.1⟩

/-- C10: the cloud-KMS sign request places the Keccak-256 digest of the
    payload in the request field labelled `sha256`; at the "abc" payload
    the transmitted bytes are not the SHA-256 hash, a label/content
    mismatch observable on the wire. -/
theorem C10_sha256_label_mismatch (keyVersion : String) (payload : List Nat) :
    (kmsSignRequestOf keyVersion payload).digestFieldLabel = "sha256"
    ∧ (kmsSignRequestOf keyVersion payload).digestFieldBytes = keccak256 payload
    ∧ ¬ (keccak256 [97, 98, 99] = sha256 [97, 98, 99]) :=
  ⟨rfl, rfl, by decide⟩

/-- C8 counterexample: an 8-byte DER-encoded signature (ASN.1 tag 0x30 at
    offset 0, length different from 64) is returned unchanged by the
    HSM-vault path instead of being DER-decoded — DER decoding it, as the
    cloud-KMS path does, yields a 64-byte signature, but `azureSigner`
    returns the 8 input bytes. -/
theorem C8_no_layout_detection_counterexample :
    azureSignatureNormalize [48, 6, 2, 1, 5, 2, 1, 7] = [48, 6, 2, 1, 5, 2, 1, 7]
    ∧ kmsSignatureNormalize [48, 6, 2, 1, 5, 2, 1, 7]
        = some ((List.replicate 31 0 ++ [5]) ++ (List.replicate 31 0 ++ [7]))
    ∧ ¬ ((azureSignatureNormalize [48, 6, 2, 1, 5, 2, 1, 7]).length = 64) :=
  ⟨rfl, by decide, by decide⟩

/-- C8 (amended): the HSM-vault signature path performs no layout
    detection — `azureSigner` returns the backend's signature bytes
    unchanged for every input, relying on the Azure `ES256K` operation
    already returning raw concatenated r‖s. -/
theorem C8_returns_bytes_unchanged (sig : List Nat) :
    azureSignatureNormalize sig = sig
    ∧ (∀ st payload, (azureSignerRun st payload sig).2.2 = sig) :=
  ⟨rfl, fun _ _ => rfl⟩

/-- C9: every `azureSigner` invocation performs a fresh `getKey`
    key-metadata fetch and constructs a new cryptography client before
    signing; nothing is cached between calls, so `n` sign calls add `n`
    key fetches beyond the `n` signing requests. -/
theorem C9_fresh_key_fetch_per_sign (payload sig : List Nat) :
    ∀ (n : Nat) (st : AzureBackendState),
      (azureSignerIterate payload sig n st).keyFetchCount = st.keyFetchCount + n
      ∧ (azureSignerIterate payload sig n st).signRequestCount
          = st.signRequestCount + n
  | 0, _ => ⟨rfl, rfl⟩
  | n + 1, st => by
    have ih := C9_fresh_key_fetch_per_sign payload sig n (azureSignerRun st payload sig).1
    simp only [azureSignerIterate, azureSignerRun] at ih ⊢
    omega

/-- C6 counterexample: calling the backend public-key fetch twice issues
    two backend fetches, not one — the fetch functions contain no
    memoization. -/
theorem C6_two_calls_two_fetches_counterexample :
    (fetchKmsPublicKeyRun (fetchKmsPublicKeyRun 0 ⟨[]⟩).1 ⟨[]⟩).1 = 2
    ∧ ¬ ((fetchKmsPublicKeyRun (fetchKmsPublicKeyRun 0 ⟨[]⟩).1 ⟨[]⟩).1 = 1)
    ∧ (fetchAzurePublicKeyRun
        (fetchAzurePublicKeyRun 0 ⟨"EC-HSM", "P-256K", [], []⟩).1
        ⟨"EC-HSM", "P-256K", [], []⟩).1 = 2 :=
  ⟨rfl, by decide, rfl⟩

/-- C6 (amended): every call of a public-key fetch function issues
    exactly one backend fetch and recomputes the normalization — the
    canonical key is not memoized by these functions; the scripts fetch
    once in their main flow and reuse the returned key object. -/
theorem C6_fetch_per_call (n m : Nat) (pem : PemKey) (jwk : AzureJwk) :
    (fetchKmsPublicKeyRun n pem).1 = n + 1
    ∧ (fetchKmsPublicKeyRun n pem).2 = gcpKeyNormalize pem
    ∧ (fetchAzurePublicKeyRun m jwk).1 = m + 1
    ∧ (fetchAzurePublicKeyRun m jwk).2 = azureKeyNormalize jwk :=
  ⟨rfl, rfl, rfl, rfl⟩

/-- C4: normalizing the HSM JWK (kty `EC-HSM`, crv `P-256K`, raw-buffer
    coordinates) — tags rewritten, coordinates re-encoded as base64url,
    generic JWK→SPKI conversion, hex output — agrees byte-for-byte with
    normalizing the cloud-KMS PEM of the same underlying key. -/
theorem C4_key_normalization_agreement (jwk : AzureJwk)
    (_hkty : jwk.kty = "EC-HSM") (_hcrv : jwk.crv = "P-256K")
    (hx : ValidBytes jwk.x) (hy : ValidBytes jwk.y)
    (hxl : jwk.x.length = 32) (hyl : jwk.y.length = 32) :
    azureKeyNormalize jwk = some (toHex (secp256k1Spki jwk.x jwk.y))
    ∧ gcpKeyNormalize (kmsPemOfCoords jwk.x jwk.y)
        = toHex (secp256k1Spki jwk.x jwk.y) := by
  have hdx : base64UrlDecode (base64UrlEncode jwk.x) = jwk.x :=
    base64UrlDecode_base64UrlEncode _ hx
  have hdy : base64UrlDecode (base64UrlEncode jwk.y) = jwk.y :=
    base64UrlDecode_base64UrlEncode _ hy
  constructor
  · simp only [azureKeyNormalize, jwkToSpkiDer, hdx, hdy, hxl, hyl]
    simp
  · have hvspki := validBytes_spki jwk.x jwk.y hx hy
    simp only [gcpKeyNormalize, kmsPemOfCoords, pemToSpkiDer,
      base64Decode_base64Encode _ hvspki]

/-- C4 witness: agreement at a concrete pair of 32-byte coordinates. -/
theorem C4_key_normalization_agreement_witness :
    azureKeyNormalize ⟨"EC-HSM", "P-256K", List.replicate 32 1, List.replicate 32 2⟩
      = some (toHex (secp256k1Spki (List.replicate 32 1) (List.replicate 32 2))) :=
  (C4_key_normalization_agreement
    ⟨"EC-HSM", "P-256K", List.replicate 32 1, List.replicate 32 2⟩
    rfl rfl (by decide) (by decide) (by decide) (by decide)).1

end HederaHsm
